import Mathlib

/-!
Shallow embedding of the widget-grid ordering core of the good-neighbor
repository (`src/frontend/src/components/widget-grid.ts`), together with
proofs about its drag-and-drop reordering and state-synchronization
behaviour.

JavaScript arrays become `List`, `Array.prototype.findIndex` becomes an
`Option Nat` (with `none` standing for the sentinel `-1`), the stable
`Array.prototype.sort` with comparator `(a, b) => a.position - b.position`
becomes a stable insertion sort by `position`, and the side effects of
`handleWidgetReorder` (backend calls, reload, alert, console diagnostics)
are collected in an explicit outcome record.
-/

/-- A widget as described by `src/frontend/src/types/widget.ts`.  The
`type` field is the string value of the `WidgetType` enum (`"iframe"`,
`"shortcut"`, `"query"`); `properties` is an open key-value bag that the
ordering core treats as opaque. -/
structure Widget where
  id : String
  type : String
  position : Int
  properties : List (String × String)
  created_at : String
  updated_at : String
deriving DecidableEq

/-- The `'before' | 'after'` drop indicator carried by reorder events. -/
inductive DropPosition where
  | before
  | after
deriving DecidableEq

/-- `Array.prototype.findIndex`: index of the first element satisfying the
predicate; `none` models the JavaScript return value `-1`. -/
def jsFindIndex (p : α → Bool) : List α → Option Nat
  | [] => none
  | a :: l => if p a then some 0 else (jsFindIndex p l).map (· + 1)

/-- The stable ascending sort `sameTypeWidgets.sort((a, b) => a.position - b.position)`
from `handleWidgetReorder` (widget-grid.ts line 385).  JavaScript's sort is
stable, which a stable insertion sort by `position` mirrors exactly. -/
def sortByPosition (l : List Widget) : List Widget :=
  l.insertionSort (fun a b => a.position ≤ b.position)

/-- `WidgetGrid.handleContainerReorder` (widget-grid.ts lines 336-358) as a
function on the `containerOrder` list.  The first component is the
in-memory `this.containerOrder` after the call; the second records whether
`saveContainerOrder` ran (the call also re-renders exactly when it saves).
Note the source splices the dragged type out `before` the target lookup, so
an absent target leaves the dragged type removed in memory. -/
def handleContainerReorder (containerOrder : List String)
    (draggedType targetType : String) (position : DropPosition) :
    List String × Bool :=
  match jsFindIndex (· == draggedType) containerOrder with
  | none => (containerOrder, false)
  | some draggedIndex =>
    let removed := containerOrder.eraseIdx draggedIndex
    match jsFindIndex (· == targetType) removed with
    | none => (removed, false)
    | some targetIndex =>
      let insertIndex :=
        match position with
        | DropPosition.before => targetIndex
        | DropPosition.after => targetIndex + 1
      (List.insertIdx insertIndex draggedType removed, true)

/-- The four-branch splice-index arithmetic of `handleWidgetReorder`
(widget-grid.ts lines 396-406), computing where to re-insert the dragged
widget into the list from which it was already removed. -/
def spliceIndex (draggedIndex targetIndex : Nat) (position : DropPosition) : Nat :=
  if draggedIndex < targetIndex ∧ position = DropPosition.after then
    targetIndex
  else if draggedIndex < targetIndex ∧ position = DropPosition.before then
    targetIndex - 1
  else if draggedIndex > targetIndex ∧ position = DropPosition.after then
    targetIndex + 1
  else
    targetIndex

/-- Lines 387-409 of widget-grid.ts, starting from the sorted same-type
list `sameTypeWidgets`: find both indices, splice the dragged widget out,
and re-insert it at the computed index.  `none` models the bare `return`
when `findIndex` yields `-1`. -/
def spliceSequence (sameTypeWidgets : List Widget)
    (draggedWidgetId targetWidgetId : String) (position : DropPosition) :
    Option (List Widget) :=
  match jsFindIndex (fun w => w.id == draggedWidgetId) sameTypeWidgets,
        jsFindIndex (fun w => w.id == targetWidgetId) sameTypeWidgets with
  | some draggedIndex, some targetIndex =>
    match sameTypeWidgets[draggedIndex]? with
    | some movedWidget =>
      some (List.insertIdx (spliceIndex draggedIndex targetIndex position)
        movedWidget (sameTypeWidgets.eraseIdx draggedIndex))
    | none => none
  | _, _ => none

/-- Lines 382-409 of widget-grid.ts: collect the widgets sharing the
dragged widget's type sorted by position, then splice-and-reinsert. -/
def computeNewSequence (widgets : List Widget)
    (draggedWidgetId targetWidgetId : String) (draggedType : String)
    (position : DropPosition) : Option (List Widget) :=
  spliceSequence (sortByPosition (widgets.filter (fun w => w.type == draggedType)))
    draggedWidgetId targetWidgetId position

/-- The in-place mutation `widget.position = index` performed on every
widget of the new sequence (widget-grid.ts line 415): the objects in
`sameTypeWidgets` alias the objects of `this.widgets`, so each widget of
the collection whose id occurs in the new sequence receives that
sequence index as its position. -/
def applySequencePositions (widgets newSeq : List Widget) : List Widget :=
  widgets.map fun w =>
    match jsFindIndex (fun v => v.id == w.id) newSeq with
    | some i => { w with position := (i : Int) }
    | none => w

/-- The batch of `updateWidgetPosition(widget.id, { position: index })`
requests issued for the new sequence (widget-grid.ts line 416). -/
def batchCalls (newSeq : List Widget) : List (String × Nat) :=
  newSeq.enum.map fun p => (p.2.id, p.1)

/-- Observable outcome of one `handleWidgetReorder` call.  `widgets` is
`this.widgets` as it stands when the call settles (on success `reloaded`
records that `loadWidgets` is then invoked, which replaces the collection
with the backend response); `calls` lists the issued
`updateWidgetPosition` requests in order; `alerted` records the
user-facing `alert`, `logged` any `console.error`/`console.warn`. -/
structure ReorderOutcome where
  widgets : List Widget
  calls : List (String × Nat)
  reloaded : Bool
  alerted : Bool
  logged : Bool
deriving DecidableEq

/-- `WidgetGrid.handleWidgetReorder` (widget-grid.ts lines 363-427).
`updateFails` is the failure oracle for `updateWidgetPosition` keyed by
widget id; the per-widget position mutations and all batch calls happen
synchronously inside the `map` callback, before `Promise.all` settles, so
they occur whether or not the batch then fails.  The `catch` branch only
logs and alerts — it does not reload. -/
def handleWidgetReorder (widgets : List Widget)
    (draggedWidgetId targetWidgetId : String) (position : DropPosition)
    (updateFails : String → Bool) : ReorderOutcome :=
  match widgets.find? (fun w => w.id == draggedWidgetId),
        widgets.find? (fun w => w.id == targetWidgetId) with
  | some draggedWidget, some targetWidget =>
    if draggedWidget.type ≠ targetWidget.type then
      { widgets := widgets, calls := [], reloaded := false, alerted := false, logged := true }
    else
      match computeNewSequence widgets draggedWidgetId targetWidgetId
          draggedWidget.type position with
      | none =>
        { widgets := widgets, calls := [], reloaded := false, alerted := false, logged := false }
      | some newSeq =>
        if newSeq.any (fun w => updateFails w.id) then
          { widgets := applySequencePositions widgets newSeq,
            calls := batchCalls newSeq,
            reloaded := false, alerted := true, logged := true }
        else
          { widgets := applySequencePositions widgets newSeq,
            calls := batchCalls newSeq,
            reloaded := true, alerted := false, logged := false }
  | _, _ =>
    { widgets := widgets, calls := [], reloaded := false, alerted := false, logged := true }

/-- Observable outcome of one grid event-listener invocation
(widget-grid.ts lines 282-302): the collection afterwards, whether
`render` ran, and whether any backend reload was triggered. -/
structure EventOutcome where
  widgets : List Widget
  rendered : Bool
  reloaded : Bool
deriving DecidableEq

/-- The `widget-deleted` listener (widget-grid.ts lines 284-290): filter
the widget out of the collection and re-render; no backend call. -/
def handleWidgetDeleted (widgets : List Widget) (widgetId : String) : EventOutcome :=
  { widgets := widgets.filter (fun w => !(w.id == widgetId)),
    rendered := true, reloaded := false }

/-- `this.widgets.find(...)` followed by in-place assignment of
`properties` and `updated_at` (widget-grid.ts lines 297-301): patch the
first widget carrying the id, leave the rest untouched. -/
def patchFirstWidget (widgets : List Widget) (widgetId : String)
    (properties : List (String × String)) (now : String) : List Widget :=
  match widgets with
  | [] => []
  | w :: ws =>
    if w.id == widgetId then
      { w with properties := properties, updated_at := now } :: ws
    else
      w :: patchFirstWidget ws widgetId properties now

/-- The `widget-updated` listener (widget-grid.ts lines 293-302): patch in
place; no render, no reload. -/
def handleWidgetUpdated (widgets : List Widget) (widgetId : String)
    (properties : List (String × String)) (now : String) : EventOutcome :=
  { widgets := patchFirstWidget widgets widgetId properties now,
    rendered := false, reloaded := false }

/-- Insertion-ordered distinct `type` values of the collection: the keys
of the `Map` built by `groupWidgetsByType` (widget-grid.ts lines 154-166),
which a JavaScript `Map` yields in first-insertion order. -/
def distinctTypes (widgets : List Widget) : List String :=
  widgets.foldl (fun acc w => if acc.contains w.type then acc else acc ++ [w.type]) []

/-- The `availableTypes.forEach` loop of `renderContainers` (widget-grid.ts
lines 124-128): push every type not yet contained, at the end, in
encounter order. -/
def augmentOrder (containerOrder : List String) (availableTypes : List String) : List String :=
  availableTypes.foldl (fun acc t => if acc.contains t then acc else acc ++ [t]) containerOrder

/-- The container-order bookkeeping of `renderContainers` (widget-grid.ts
lines 110-128): seed an empty order from the available types and persist
it (`saveContainerOrder`), then append any new types WITHOUT persisting.
First component: the in-memory `containerOrder` afterwards; second:
whether `saveContainerOrder` ran. -/
def renderContainersOrder (containerOrder : List String) (widgets : List Widget) :
    List String × Bool :=
  let availableTypes := distinctTypes widgets
  if containerOrder.isEmpty then
    (augmentOrder availableTypes availableTypes, true)
  else
    (augmentOrder containerOrder availableTypes, false)

/-- Spec-side removal step: "removing D" from the sorted same-type list
(the list with the dragged element removed). -/
def removeById (l : List Widget) (widgetId : String) : List Widget :=
  match jsFindIndex (fun w => w.id == widgetId) l with
  | none => l
  | some i => l.eraseIdx i

/-- Spec-side insertion step: re-insert `d` "immediately before T
(pos = before) or immediately after T (pos = after)" in the post-removal
list. -/
def insertRelativeToTarget (l : List Widget) (targetWidgetId : String)
    (position : DropPosition) (d : Widget) : List Widget :=
  match jsFindIndex (fun w => w.id == targetWidgetId) l with
  | none => l
  | some j =>
    List.insertIdx
      (match position with
       | DropPosition.before => j
       | DropPosition.after => j + 1) d l

/-- Spec-side splice on an already sorted same-type list: remove D, then
re-insert it relative to T in the post-removal list. -/
def specInsertSequence (sorted : List Widget) (d : Widget) (targetWidgetId : String)
    (position : DropPosition) : List Widget :=
  insertRelativeToTarget (removeById sorted d.id) targetWidgetId position d

/-- The new ordered sequence as the specification words it: sort that
type's widgets ascending by current position, remove D, and re-insert D
immediately before or after T in the post-removal list. -/
def specReorderSequence (widgets : List Widget) (d t : Widget)
    (position : DropPosition) : List Widget :=
  specInsertSequence (sortByPosition (widgets.filter (fun w => w.type == d.type)))
    d t.id position

/-- Example widget for the scenario of the specification: SHORTCUT "A" at
position 0. -/
def exA : Widget :=
  { id := "A", type := "shortcut", position := 0, properties := [],
    created_at := "", updated_at := "" }

/-- Example widget: SHORTCUT "B" at position 1. -/
def exB : Widget :=
  { id := "B", type := "shortcut", position := 1, properties := [],
    created_at := "", updated_at := "" }

/-- Example widget: SHORTCUT "C" at position 2. -/
def exC : Widget :=
  { id := "C", type := "shortcut", position := 2, properties := [],
    created_at := "", updated_at := "" }

/-- Example collection for the scenario of the specification: three
SHORTCUT widgets at positions 0, 1, 2. -/
def exShortcutWidgets : List Widget :=
  [exA, exB, exC]

/-- Example widget of a different type (IFRAME). -/
def exIframeWidget : Widget :=
  { id := "I", type := "iframe", position := 0, properties := [],
    created_at := "", updated_at := "" }

/-- Example widget with a non-dense position, to exercise renumbering. -/
def exLone : Widget :=
  { id := "w1", type := "shortcut", position := 5, properties := [],
    created_at := "", updated_at := "" }

/-! ### Toolkit: list decompositions and index computations -/

lemma jsFindIndex_eq_some_of_decomp (p : α → Bool) (u : List α) (x : α) (v : List α)
    (hu : ∀ y ∈ u, p y = false) (hx : p x = true) :
    jsFindIndex p (u ++ x :: v) = some u.length := by
  induction u with
  | nil => simp [jsFindIndex, hx]
  | cons a l ih =>
    have ha : p a = false := hu a (by simp)
    have h := ih (fun y hy => hu y (by simp [hy]))
    simp [jsFindIndex, ha, h]

lemma find?_eq_some_of_decomp (p : α → Bool) (u : List α) (x : α) (v : List α)
    (hu : ∀ y ∈ u, p y = false) (hx : p x = true) :
    List.find? p (u ++ x :: v) = some x := by
  induction u with
  | nil => simp [List.find?_cons, hx]
  | cons a l ih =>
    have ha : p a = false := hu a (by simp)
    have h := ih (fun y hy => hu y (by simp [hy]))
    simp [List.find?_cons, ha, h]

lemma getElem?_decomp (u : List α) (x : α) (v : List α) :
    (u ++ x :: v)[u.length]? = some x := by
  induction u with
  | nil => simp
  | cons a l ih => simpa using ih

lemma eraseIdx_decomp (u : List α) (x : α) (v : List α) :
    (u ++ x :: v).eraseIdx u.length = u ++ v := by
  induction u with
  | nil => simp
  | cons a l ih => simp [List.eraseIdx_cons_succ, ih]

lemma insertIdx_decomp (u : List α) (x : α) (v : List α) :
    List.insertIdx u.length x (u ++ v) = u ++ x :: v := by
  induction u with
  | nil => simp
  | cons a l ih => simp [List.insertIdx_succ_cons, ih]

lemma decomp_two_of_mem {l : List α} {x y : α} (hx : x ∈ l) (hy : y ∈ l)
    (hne : x ≠ y) :
    (∃ u m v, l = u ++ x :: (m ++ y :: v)) ∨ (∃ u m v, l = u ++ y :: (m ++ x :: v)) := by
  obtain ⟨u, v, rfl⟩ := List.append_of_mem hx
  rcases List.mem_append.1 hy with hyu | hyv
  · right
    obtain ⟨u₁, u₂, rfl⟩ := List.append_of_mem hyu
    exact ⟨u₁, u₂, v, by simp⟩
  · left
    have hyv' : y ∈ v := by
      rcases List.mem_cons.1 hyv with h | h
      · exact absurd h.symm hne
      · exact h
    obtain ⟨v₁, v₂, rfl⟩ := List.append_of_mem hyv'
    exact ⟨u, v₁, v₂, by simp⟩

lemma nodup_keys_facts {β : Type} [DecidableEq β] (f : α → β) (u : List α) (a : α)
    (m : List α) (b : α) (v : List α)
    (hnd : ((u ++ a :: (m ++ b :: v)).map f).Nodup) :
    (∀ y ∈ u, (f y == f a) = false) ∧ (∀ y ∈ m, (f y == f a) = false) ∧
    (∀ y ∈ v, (f y == f a) = false) ∧ ((f b == f a) = false) ∧
    (∀ y ∈ u, (f y == f b) = false) ∧ (∀ y ∈ m, (f y == f b) = false) ∧
    (∀ y ∈ v, (f y == f b) = false) ∧ ((f a == f b) = false) := by
  simp only [List.map_append, List.map_cons, List.nodup_append, List.nodup_cons,
    List.mem_append, List.mem_cons, List.mem_map, List.disjoint_left] at hnd
  obtain ⟨hA, ⟨hHead, hC, ⟨hE, hF⟩, hMth⟩, hU⟩ := hnd
  refine ⟨fun y hy => ?_, fun y hy => ?_, fun y hy => ?_, ?_, fun y hy => ?_,
    fun y hy => ?_, fun y hy => ?_, ?_⟩ <;>
    simp only [beq_eq_false_iff_ne, ne_eq]
  · intro hc
    exact hU ⟨y, hy, rfl⟩ (Or.inl hc)
  · intro hc
    exact hHead (Or.inl ⟨y, hy, hc⟩)
  · intro hc
    exact hHead (Or.inr (Or.inr ⟨y, hy, hc⟩))
  · intro hc
    exact hHead (Or.inr (Or.inl hc.symm))
  · intro hc
    exact hU ⟨y, hy, rfl⟩ (Or.inr (Or.inr (Or.inl hc)))
  · intro hc
    exact hMth ⟨y, hy, rfl⟩ (Or.inl hc)
  · intro hc
    exact hE ⟨y, hy, hc⟩
  · intro hc
    exact hHead (Or.inr (Or.inl hc))

lemma decomp_single_nodupKeys {β : Type} [DecidableEq β] (f : α → β) {l : List α}
    (hnd : (l.map f).Nodup) {x : α} (hx : x ∈ l) :
    ∃ u v, l = u ++ x :: v ∧ (∀ y ∈ u, (f y == f x) = false) ∧
      (∀ y ∈ v, (f y == f x) = false) := by
  obtain ⟨u, v, rfl⟩ := List.append_of_mem hx
  refine ⟨u, v, rfl, ?_, ?_⟩
  · simp only [List.map_append, List.map_cons, List.nodup_append, List.nodup_cons,
      List.mem_cons, List.disjoint_left, List.mem_map] at hnd
    intro y hy
    simp only [beq_eq_false_iff_ne, ne_eq]
    intro hc
    exact hnd.2.2 ⟨y, hy, rfl⟩ (Or.inl hc)
  · simp only [List.map_append, List.map_cons, List.nodup_append, List.nodup_cons,
      List.mem_cons, List.disjoint_left, List.mem_map] at hnd
    intro y hy
    simp only [beq_eq_false_iff_ne, ne_eq]
    intro hc
    exact hnd.2.1.1 ⟨y, hy, hc⟩

lemma find?_id_eq_self {l : List Widget} (hnd : (l.map Widget.id).Nodup)
    {x : Widget} (hx : x ∈ l) :
    l.find? (fun w => w.id == x.id) = some x := by
  obtain ⟨u, v, hl, hu, _⟩ := decomp_single_nodupKeys Widget.id hnd hx
  subst hl
  exact find?_eq_some_of_decomp _ u x v hu (by simp)

lemma sortByPosition_perm (l : List Widget) : (sortByPosition l).Perm l :=
  List.perm_insertionSort _ l

lemma nodupIds_sortByPosition_filter {widgets : List Widget}
    (hnd : (widgets.map Widget.id).Nodup) (t : String) :
    ((sortByPosition (widgets.filter (fun w => w.type == t))).map Widget.id).Nodup := by
  have h1 : (widgets.filter (fun w => w.type == t)).Sublist widgets :=
    List.filter_sublist _
  have h2 : ((widgets.filter (fun w => w.type == t)).map Widget.id).Nodup :=
    List.Nodup.sublist (h1.map Widget.id) hnd
  exact ((sortByPosition_perm _).map Widget.id).symm.nodup h2

lemma mem_sortByPosition_filter {widgets : List Widget} {w : Widget} {t : String}
    (hw : w ∈ widgets) (hty : w.type = t) :
    w ∈ sortByPosition (widgets.filter (fun v => v.type == t)) :=
  ((sortByPosition_perm _).mem_iff).2 (List.mem_filter.2 ⟨hw, by simp [hty]⟩)

/-! ### Reorder-sequence and container-order lemmas -/

lemma spliceIndex_lt_before {i j : Nat} (h : i < j) :
    spliceIndex i j DropPosition.before = j - 1 := by
  simp [spliceIndex, h]

lemma spliceIndex_lt_after {i j : Nat} (h : i < j) :
    spliceIndex i j DropPosition.after = j := by
  simp [spliceIndex, h]

lemma spliceIndex_gt_before {i j : Nat} (h : j < i) :
    spliceIndex i j DropPosition.before = j := by
  have h' : ¬ i < j := by omega
  simp [spliceIndex, h']

lemma spliceIndex_gt_after {i j : Nat} (h : j < i) :
    spliceIndex i j DropPosition.after = j + 1 := by
  have h' : ¬ i < j := by omega
  simp [spliceIndex, h', h]

lemma spliceIndex_self (i : Nat) (position : DropPosition) :
    spliceIndex i i position = i := by
  cases position <;> simp [spliceIndex]

lemma spliceSequence_caseA (u : List Widget) (d : Widget) (m : List Widget) (t : Widget)
    (v : List Widget) (position : DropPosition)
    (hnds : ((u ++ d :: (m ++ t :: v)).map Widget.id).Nodup) :
    spliceSequence (u ++ d :: (m ++ t :: v)) d.id t.id position =
      some (specInsertSequence (u ++ d :: (m ++ t :: v)) d t.id position) ∧
    (specInsertSequence (u ++ d :: (m ++ t :: v)) d t.id position).Perm
      (u ++ d :: (m ++ t :: v)) := by
  obtain ⟨hua, hma, hva, hba, hub, hmb, hvb, hab⟩ :=
    nodup_keys_facts Widget.id u d m t v hnds
  have hi : jsFindIndex (fun w => w.id == d.id) (u ++ d :: (m ++ t :: v)) =
      some u.length :=
    jsFindIndex_eq_some_of_decomp _ u d (m ++ t :: v) hua (by simp)
  have hj : jsFindIndex (fun w => w.id == t.id) (u ++ d :: (m ++ t :: v)) =
      some (u.length + (m.length + 1)) := by
    have h := jsFindIndex_eq_some_of_decomp (fun w => w.id == t.id) (u ++ d :: m) t v
      (by
        intro y hy
        rcases List.mem_append.1 hy with h1 | h2
        · exact hub y h1
        · rcases List.mem_cons.1 h2 with rfl | h3
          · exact hab
          · exact hmb y h3)
      (by simp)
    simpa using h
  have hget : (u ++ d :: (m ++ t :: v))[u.length]? = some d :=
    getElem?_decomp u d (m ++ t :: v)
  have herase : (u ++ d :: (m ++ t :: v)).eraseIdx u.length = u ++ (m ++ t :: v) :=
    eraseIdx_decomp u d (m ++ t :: v)
  have hj2 : jsFindIndex (fun w => w.id == t.id) (u ++ (m ++ t :: v)) =
      some (u.length + m.length) := by
    have h := jsFindIndex_eq_some_of_decomp (fun w => w.id == t.id) (u ++ m) t v
      (by
        intro y hy
        rcases List.mem_append.1 hy with h1 | h2
        · exact hub y h1
        · exact hmb y h2)
      (by simp)
    simpa using h
  cases position with
  | before =>
    have hspec : specInsertSequence (u ++ d :: (m ++ t :: v)) d t.id
        DropPosition.before =
        List.insertIdx (u.length + m.length) d (u ++ (m ++ t :: v)) := by
      simp only [specInsertSequence, removeById, insertRelativeToTarget, hi, herase, hj2]
    refine ⟨?_, ?_⟩
    · rw [hspec]
      simp only [spliceSequence, hi, hj, hget, herase,
        spliceIndex_lt_before (show u.length < u.length + (m.length + 1) by omega)]
      have he : u.length + (m.length + 1) - 1 = u.length + m.length := by omega
      rw [he]
    · rw [hspec]
      have hk : u.length + m.length ≤ (u ++ (m ++ t :: v)).length := by
        simp only [List.length_append, List.length_cons]
        omega
      exact (List.perm_insertIdx d _ hk).trans List.perm_middle.symm
  | after =>
    have hspec : specInsertSequence (u ++ d :: (m ++ t :: v)) d t.id
        DropPosition.after =
        List.insertIdx (u.length + m.length + 1) d (u ++ (m ++ t :: v)) := by
      simp only [specInsertSequence, removeById, insertRelativeToTarget, hi, herase, hj2]
    refine ⟨?_, ?_⟩
    · rw [hspec]
      simp only [spliceSequence, hi, hj, hget, herase,
        spliceIndex_lt_after (show u.length < u.length + (m.length + 1) by omega)]
      have he : u.length + (m.length + 1) = u.length + m.length + 1 := by omega
      rw [he]
    · rw [hspec]
      have hk : u.length + m.length + 1 ≤ (u ++ (m ++ t :: v)).length := by
        simp only [List.length_append, List.length_cons]
        omega
      exact (List.perm_insertIdx d _ hk).trans List.perm_middle.symm

lemma spliceSequence_caseB (u : List Widget) (t : Widget) (m : List Widget) (d : Widget)
    (v : List Widget) (position : DropPosition)
    (hnds : ((u ++ t :: (m ++ d :: v)).map Widget.id).Nodup) :
    spliceSequence (u ++ t :: (m ++ d :: v)) d.id t.id position =
      some (specInsertSequence (u ++ t :: (m ++ d :: v)) d t.id position) ∧
    (specInsertSequence (u ++ t :: (m ++ d :: v)) d t.id position).Perm
      (u ++ t :: (m ++ d :: v)) := by
  obtain ⟨hua, hma, hva, hba, hub, hmb, hvb, hab⟩ :=
    nodup_keys_facts Widget.id u t m d v hnds
  have hi : jsFindIndex (fun w => w.id == d.id) (u ++ t :: (m ++ d :: v)) =
      some (u.length + (m.length + 1)) := by
    have h := jsFindIndex_eq_some_of_decomp (fun w => w.id == d.id) (u ++ t :: m) d v
      (by
        intro y hy
        rcases List.mem_append.1 hy with h1 | h2
        · exact hub y h1
        · rcases List.mem_cons.1 h2 with rfl | h3
          · exact hab
          · exact hmb y h3)
      (by simp)
    simpa using h
  have hj : jsFindIndex (fun w => w.id == t.id) (u ++ t :: (m ++ d :: v)) =
      some u.length :=
    jsFindIndex_eq_some_of_decomp _ u t (m ++ d :: v) hua (by simp)
  have hget : (u ++ t :: (m ++ d :: v))[u.length + (m.length + 1)]? = some d := by
    have h := getElem?_decomp (u ++ t :: m) d v
    simpa using h
  have herase : (u ++ t :: (m ++ d :: v)).eraseIdx (u.length + (m.length + 1)) =
      u ++ t :: (m ++ v) := by
    have h := eraseIdx_decomp (u ++ t :: m) d v
    simpa using h
  have hj2 : jsFindIndex (fun w => w.id == t.id) (u ++ t :: (m ++ v)) =
      some u.length :=
    jsFindIndex_eq_some_of_decomp _ u t (m ++ v) hua (by simp)
  have hmid : (u ++ t :: (m ++ d :: v)).Perm (d :: (u ++ t :: (m ++ v))) := by
    have h := @List.perm_middle _ d (u ++ t :: m) v
    simpa using h
  cases position with
  | before =>
    have hspec : specInsertSequence (u ++ t :: (m ++ d :: v)) d t.id
        DropPosition.before =
        List.insertIdx u.length d (u ++ t :: (m ++ v)) := by
      simp only [specInsertSequence, removeById, insertRelativeToTarget, hi, herase, hj2]
    refine ⟨?_, ?_⟩
    · rw [hspec]
      simp only [spliceSequence, hi, hj, hget, herase,
        spliceIndex_gt_before (show u.length < u.length + (m.length + 1) by omega)]
    · rw [hspec]
      have hk : u.length ≤ (u ++ t :: (m ++ v)).length := by
        simp only [List.length_append, List.length_cons]
        omega
      exact (List.perm_insertIdx d _ hk).trans hmid.symm
  | after =>
    have hspec : specInsertSequence (u ++ t :: (m ++ d :: v)) d t.id
        DropPosition.after =
        List.insertIdx (u.length + 1) d (u ++ t :: (m ++ v)) := by
      simp only [specInsertSequence, removeById, insertRelativeToTarget, hi, herase, hj2]
    refine ⟨?_, ?_⟩
    · rw [hspec]
      simp only [spliceSequence, hi, hj, hget, herase,
        spliceIndex_gt_after (show u.length < u.length + (m.length + 1) by omega)]
    · rw [hspec]
      have hk : u.length + 1 ≤ (u ++ t :: (m ++ v)).length := by
        simp only [List.length_append, List.length_cons]
        omega
      exact (List.perm_insertIdx d _ hk).trans hmid.symm

lemma spliceSequence_self (u : List Widget) (w : Widget) (v : List Widget)
    (position : DropPosition)
    (hu : ∀ y ∈ u, (y.id == w.id) = false) :
    spliceSequence (u ++ w :: v) w.id w.id position = some (u ++ w :: v) := by
  have hi : jsFindIndex (fun y => y.id == w.id) (u ++ w :: v) = some u.length :=
    jsFindIndex_eq_some_of_decomp _ u w v hu (by simp)
  simp only [spliceSequence, hi, getElem?_decomp, eraseIdx_decomp,
    spliceIndex_self, insertIdx_decomp]

lemma computeNewSequence_eq_spec (widgets : List Widget) (d t : Widget)
    (position : DropPosition) (hnd : (widgets.map Widget.id).Nodup)
    (hd : d ∈ widgets) (ht : t ∈ widgets)
    (hty : t.type = d.type) (hne : d.id ≠ t.id) :
    computeNewSequence widgets d.id t.id d.type position =
      some (specReorderSequence widgets d t position) ∧
    (specReorderSequence widgets d t position).Perm
      (sortByPosition (widgets.filter (fun w => w.type == d.type))) := by
  have hnds := nodupIds_sortByPosition_filter hnd d.type
  have hds : d ∈ sortByPosition (widgets.filter (fun w => w.type == d.type)) :=
    mem_sortByPosition_filter hd rfl
  have hts : t ∈ sortByPosition (widgets.filter (fun w => w.type == d.type)) :=
    mem_sortByPosition_filter ht hty
  have hne' : d ≠ t := fun h => hne (by rw [h])
  unfold computeNewSequence specReorderSequence
  rcases decomp_two_of_mem hds hts hne' with ⟨u, m, v, hl⟩ | ⟨u, m, v, hl⟩
  · rw [hl] at hnds ⊢
    exact spliceSequence_caseA u d m t v position hnds
  · rw [hl] at hnds ⊢
    exact spliceSequence_caseB u t m d v position hnds

lemma handleWidgetReorder_branches (widgets : List Widget) (d t : Widget)
    (position : DropPosition) (updateFails : String → Bool) (newSeq : List Widget)
    (hnd : (widgets.map Widget.id).Nodup) (hd : d ∈ widgets) (ht : t ∈ widgets)
    (hty : t.type = d.type)
    (hseq : computeNewSequence widgets d.id t.id d.type position = some newSeq) :
    handleWidgetReorder widgets d.id t.id position updateFails =
      if newSeq.any (fun w => updateFails w.id) then
        { widgets := applySequencePositions widgets newSeq, calls := batchCalls newSeq,
          reloaded := false, alerted := true, logged := true }
      else
        { widgets := applySequencePositions widgets newSeq, calls := batchCalls newSeq,
          reloaded := true, alerted := false, logged := false } := by
  have hfd : widgets.find? (fun w => w.id == d.id) = some d := find?_id_eq_self hnd hd
  have hft : widgets.find? (fun w => w.id == t.id) = some t := find?_id_eq_self hnd ht
  simp only [handleWidgetReorder, hfd, hft, hty, ne_eq, not_true_eq_false, if_false,
    ite_false, hseq]

lemma computeNewSequence_self (widgets : List Widget) (w : Widget)
    (position : DropPosition) (hnd : (widgets.map Widget.id).Nodup)
    (hw : w ∈ widgets) :
    computeNewSequence widgets w.id w.id w.type position =
      some (sortByPosition (widgets.filter (fun v => v.type == w.type))) := by
  have hnds := nodupIds_sortByPosition_filter hnd w.type
  have hws := mem_sortByPosition_filter hw rfl
  obtain ⟨u, v, hl, hu, _⟩ := decomp_single_nodupKeys Widget.id hnds hws
  unfold computeNewSequence
  rw [hl]
  exact spliceSequence_self u w v position hu

lemma jsFindIndex_get {β : Type} [DecidableEq β] (f : α → β) :
    ∀ (l : List α), (l.map f).Nodup → ∀ (i : Nat) (hi : i < l.length),
      jsFindIndex (fun y => f y == f (l.get ⟨i, hi⟩)) l = some i := by
  intro l
  induction l with
  | nil => intro _ i hi; simp at hi
  | cons a tl ih =>
    intro hnd i hi
    match i with
    | 0 => simp [jsFindIndex]
    | Nat.succ k =>
      have hk : k < tl.length := by simpa using hi
      have hmem : f (tl.get ⟨k, hk⟩) ∈ tl.map f :=
        List.mem_map_of_mem f (List.get_mem tl k hk)
      have hhead : f a ∉ tl.map f := by
        simp only [List.map_cons, List.nodup_cons] at hnd
        exact hnd.1
      have hne : (f a == f (tl.get ⟨k, hk⟩)) = false := by
        simp only [beq_eq_false_iff_ne, ne_eq]
        intro hc
        exact hhead (hc ▸ hmem)
      have htl : (tl.map f).Nodup := by
        simp only [List.map_cons, List.nodup_cons] at hnd
        exact hnd.2
      have h := ih htl k hk
      simp only [List.get_eq_getElem] at hne h
      simp only [List.get_eq_getElem, List.getElem_cons_succ]
      simp [jsFindIndex, hne, h]

lemma batchCalls_map_fst (l : List Widget) :
    (batchCalls l).map Prod.fst = l.map Widget.id := by
  rw [batchCalls, List.map_map,
    show (Prod.fst ∘ fun p : Nat × Widget => (p.2.id, p.1)) = Widget.id ∘ Prod.snd from rfl,
    ← List.map_map, List.enum_map_snd]

lemma batchCalls_map_snd (l : List Widget) :
    (batchCalls l).map Prod.snd = List.range l.length := by
  rw [batchCalls, List.map_map,
    show (Prod.snd ∘ fun p : Nat × Widget => (p.2.id, p.1)) = Prod.fst from rfl,
    List.enum_map_fst]

lemma patchFirstWidget_decomp (u : List Widget) (w : Widget) (v : List Widget)
    (properties : List (String × String)) (now : String)
    (hu : ∀ y ∈ u, (y.id == w.id) = false) :
    patchFirstWidget (u ++ w :: v) w.id properties now =
      u ++ { w with properties := properties, updated_at := now } :: v := by
  induction u with
  | nil => simp [patchFirstWidget]
  | cons a l ih =>
    have ha := hu a (by simp)
    have h := ih (fun y hy => hu y (by simp [hy]))
    simp [patchFirstWidget, ha, h]

lemma filter_out_id_decomp (u : List Widget) (w : Widget) (v : List Widget)
    (hu : ∀ y ∈ u, (y.id == w.id) = false)
    (hv : ∀ y ∈ v, (y.id == w.id) = false) :
    (u ++ w :: v).filter (fun y => !(y.id == w.id)) = u ++ v := by
  have h1 : u.filter (fun y => !(y.id == w.id)) = u :=
    List.filter_eq_self.2 (fun y hy => by simp [hu y hy])
  have h2 : v.filter (fun y => !(y.id == w.id)) = v :=
    List.filter_eq_self.2 (fun y hy => by simp [hv y hy])
  simp [List.filter_append, List.filter_cons, h1, h2]

lemma augmentOrder_decomp (availableTypes : List String) :
    ∀ containerOrder, ∃ rest,
      augmentOrder containerOrder availableTypes = containerOrder ++ rest ∧
      ∀ t ∈ rest, t ∉ containerOrder ∧ t ∈ availableTypes := by
  induction availableTypes with
  | nil =>
    intro containerOrder
    exact ⟨[], by simp [augmentOrder], by simp⟩
  | cons a l ih =>
    intro containerOrder
    by_cases h : a ∈ containerOrder
    · obtain ⟨rest, h1, h2⟩ := ih containerOrder
      refine ⟨rest, ?_, ?_⟩
      · rw [show augmentOrder containerOrder (a :: l) = augmentOrder containerOrder l from
          by simp [augmentOrder, h]]
        exact h1
      · exact fun t htm => ⟨(h2 t htm).1, by simp [(h2 t htm).2]⟩
    · obtain ⟨rest, h1, h2⟩ := ih (containerOrder ++ [a])
      refine ⟨a :: rest, ?_, ?_⟩
      · rw [show augmentOrder containerOrder (a :: l) =
            augmentOrder (containerOrder ++ [a]) l from by simp [augmentOrder, h]]
        rw [h1]
        simp
      · intro t htm
        rcases List.mem_cons.1 htm with rfl | htm'
        · exact ⟨h, by simp⟩
        · have ht := h2 t htm'
          refine ⟨fun hc => ht.1 (by simp [hc]), by simp [ht.2]⟩

lemma mem_augmentOrder (availableTypes : List String) :
    ∀ containerOrder t, t ∈ containerOrder ∨ t ∈ availableTypes →
      t ∈ augmentOrder containerOrder availableTypes := by
  induction availableTypes with
  | nil =>
    intro containerOrder t h
    rcases h with h | h
    · simpa [augmentOrder] using h
    · simp at h
  | cons a l ih =>
    intro containerOrder t h
    by_cases hc : a ∈ containerOrder
    · rw [show augmentOrder containerOrder (a :: l) = augmentOrder containerOrder l from
        by simp [augmentOrder, hc]]
      apply ih
      rcases h with h | h
      · exact Or.inl h
      · rcases List.mem_cons.1 h with rfl | h'
        · exact Or.inl hc
        · exact Or.inr h'
    · rw [show augmentOrder containerOrder (a :: l) =
          augmentOrder (containerOrder ++ [a]) l from by simp [augmentOrder, hc]]
      apply ih
      rcases h with h | h
      · exact Or.inl (by simp [h])
      · rcases List.mem_cons.1 h with rfl | h'
        · exact Or.inl (by simp)
        · exact Or.inr h'

lemma nodup_str_facts (u : List String) (a : String) (m : List String) (b : String)
    (v : List String) (hnd : (u ++ a :: (m ++ b :: v)).Nodup) :
    (∀ y ∈ u, (y == a) = false) ∧ (∀ y ∈ m, (y == a) = false) ∧
    (∀ y ∈ v, (y == a) = false) ∧ ((b == a) = false) ∧
    (∀ y ∈ u, (y == b) = false) ∧ (∀ y ∈ m, (y == b) = false) ∧
    (∀ y ∈ v, (y == b) = false) ∧ ((a == b) = false) := by
  have h := nodup_keys_facts (fun s : String => s) u a m b v (by simpa using hnd)
  exact h

/-! ### Claims -/

/-- Claim C1: for distinct same-type widgets D and T in a collection with
unique ids, `handleWidgetReorder (D.id, T.id, pos)` produces exactly the
sequence obtained by sorting that type's widgets ascending by current
position, removing D, and re-inserting D immediately before (pos = before)
or after (pos = after) T in the post-removal list; the issued
position-update batch enumerates that sequence. -/
theorem widget_reorder_matches_spec_sequence (widgets : List Widget) (d t : Widget)
    (position : DropPosition) (updateFails : String → Bool)
    (hnd : (widgets.map Widget.id).Nodup) (hd : d ∈ widgets) (ht : t ∈ widgets)
    (hty : t.type = d.type) (hne : d.id ≠ t.id) :
    computeNewSequence widgets d.id t.id d.type position =
      some (specReorderSequence widgets d t position) ∧
    (handleWidgetReorder widgets d.id t.id position updateFails).calls =
      batchCalls (specReorderSequence widgets d t position) := by
  have hcore := computeNewSequence_eq_spec widgets d t position hnd hd ht hty hne
  refine ⟨hcore.1, ?_⟩
  rw [handleWidgetReorder_branches widgets d t position updateFails _ hnd hd ht hty hcore.1]
  by_cases hfail : (specReorderSequence widgets d t position).any
    (fun w => updateFails w.id)
  · simp [hfail]
  · simp [hfail]

/-- Witness for C1: dragging SHORTCUT "C" to before "A" over positions
[0:"A", 1:"B", 2:"C"] matches the spec sequence and persists
[0:"C", 1:"A", 2:"B"]. -/
theorem widget_reorder_matches_spec_sequence_witness :
    (computeNewSequence exShortcutWidgets exC.id exA.id exC.type DropPosition.before =
      some (specReorderSequence exShortcutWidgets exC exA DropPosition.before) ∧
    (handleWidgetReorder exShortcutWidgets exC.id exA.id DropPosition.before
      (fun _ => false)).calls =
      batchCalls (specReorderSequence exShortcutWidgets exC exA DropPosition.before)) ∧
    batchCalls (specReorderSequence exShortcutWidgets exC exA DropPosition.before) =
      [("C", 0), ("A", 1), ("B", 2)] :=
  ⟨widget_reorder_matches_spec_sequence exShortcutWidgets exC exA DropPosition.before
    (fun _ => false) (by decide) (by decide) (by decide) (by decide) (by decide),
   by decide⟩

/-- Counterexample to claim C2: when a position update of the batch fails,
`handleWidgetReorder` never invokes `loadWidgets` — contrary to the claim
that the grid "reloads the widget list from the backend" on failure — and
the in-memory collection is left renumbered, differing from the pre-batch
collection. -/
theorem reorder_failure_reloads_counterexample :
    (handleWidgetReorder exShortcutWidgets "C" "A" DropPosition.before
      (fun s => s == "A")).reloaded = false ∧
    (handleWidgetReorder exShortcutWidgets "C" "A" DropPosition.before
      (fun s => s == "A")).alerted = true ∧
    (handleWidgetReorder exShortcutWidgets "C" "A" DropPosition.before
      (fun s => s == "A")).widgets ≠ exShortcutWidgets := by decide

/-- Claim C2 as amended: when any position update of the batch fails, the
grid surfaces a user-facing error but does NOT reload; the collection
keeps the optimistically renumbered positions and every batch call has
been issued. -/
theorem reorder_failure_alerts_without_reload (widgets : List Widget) (d t : Widget)
    (position : DropPosition) (updateFails : String → Bool) (newSeq : List Widget)
    (hnd : (widgets.map Widget.id).Nodup) (hd : d ∈ widgets) (ht : t ∈ widgets)
    (hty : t.type = d.type)
    (hseq : computeNewSequence widgets d.id t.id d.type position = some newSeq)
    (hfail : newSeq.any (fun w => updateFails w.id) = true) :
    handleWidgetReorder widgets d.id t.id position updateFails =
      { widgets := applySequencePositions widgets newSeq, calls := batchCalls newSeq,
        reloaded := false, alerted := true, logged := true } := by
  rw [handleWidgetReorder_branches widgets d t position updateFails newSeq hnd hd ht
    hty hseq, hfail]
  simp

/-- Witness for the amended C2: the "C"-before-"A" reorder with a failing
update for "A" alerts, does not reload, and keeps the renumbered state. -/
theorem reorder_failure_alerts_without_reload_witness :
    handleWidgetReorder exShortcutWidgets exC.id exA.id DropPosition.before
      (fun s => s == "A") =
      { widgets := applySequencePositions exShortcutWidgets [exC, exA, exB],
        calls := batchCalls [exC, exA, exB],
        reloaded := false, alerted := true, logged := true } :=
  reorder_failure_alerts_without_reload exShortcutWidgets exC exA DropPosition.before
    (fun s => s == "A") [exC, exA, exB] (by decide) (by decide) (by decide)
    (by decide) (by decide) (by decide)

/-- Claim C3: on the success path of a reorder of distinct same-type
widgets, the batch carries one call per widget of the new sequence, the
assigned positions are exactly 0..N-1 in sequence order where N is the
number of widgets of that type, the grid reloads afterwards, and each
widget of the sequence holds its index as its in-memory position. -/
theorem reorder_success_dense_renumbering (widgets : List Widget) (d t : Widget)
    (position : DropPosition) (updateFails : String → Bool) (newSeq : List Widget)
    (hnd : (widgets.map Widget.id).Nodup) (hd : d ∈ widgets) (ht : t ∈ widgets)
    (hty : t.type = d.type) (hne : d.id ≠ t.id)
    (hseq : computeNewSequence widgets d.id t.id d.type position = some newSeq)
    (hok : ∀ s, updateFails s = false) :
    (handleWidgetReorder widgets d.id t.id position updateFails).calls.map Prod.fst =
      newSeq.map Widget.id ∧
    (handleWidgetReorder widgets d.id t.id position updateFails).calls.map Prod.snd =
      List.range newSeq.length ∧
    newSeq.length = (widgets.filter (fun w => w.type == d.type)).length ∧
    (handleWidgetReorder widgets d.id t.id position updateFails).reloaded = true ∧
    ∀ (i : Nat) (hi : i < newSeq.length),
      ∃ w ∈ (handleWidgetReorder widgets d.id t.id position updateFails).widgets,
        w.id = (newSeq.get ⟨i, hi⟩).id ∧ w.position = (i : Int) := by
  have hcore := computeNewSequence_eq_spec widgets d t position hnd hd ht hty hne
  have hnsq : newSeq = specReorderSequence widgets d t position := by
    rw [hcore.1] at hseq
    exact (Option.some.inj hseq).symm
  have hperm : newSeq.Perm (sortByPosition (widgets.filter (fun w => w.type == d.type))) := by
    rw [hnsq]
    exact hcore.2
  have hany : newSeq.any (fun w => updateFails w.id) = false := by
    simp [hok]
  have hbr := handleWidgetReorder_branches widgets d t position updateFails newSeq hnd
    hd ht hty hseq
  rw [hany] at hbr
  simp only [Bool.false_eq_true, if_false] at hbr
  rw [hbr]
  refine ⟨batchCalls_map_fst newSeq, batchCalls_map_snd newSeq, ?_, rfl, ?_⟩
  · rw [hperm.length_eq, (sortByPosition_perm _).length_eq]
  · intro i hi
    have hnsq_nodup : (newSeq.map Widget.id).Nodup :=
      ((hperm.map Widget.id).symm).nodup (nodupIds_sortByPosition_filter hnd d.type)
    have hfind : jsFindIndex (fun y => y.id == (newSeq.get ⟨i, hi⟩).id) newSeq = some i :=
      jsFindIndex_get Widget.id newSeq hnsq_nodup i hi
    have hxw : newSeq.get ⟨i, hi⟩ ∈ widgets := by
      have h1 : newSeq.get ⟨i, hi⟩ ∈ newSeq := List.get_mem newSeq i hi
      have h2 := hperm.mem_iff.1 h1
      have h3 := (sortByPosition_perm _).mem_iff.1 h2
      exact (List.mem_filter.1 h3).1
    refine ⟨{ newSeq.get ⟨i, hi⟩ with position := (i : Int) }, ?_, rfl, rfl⟩
    have hmap := List.mem_map_of_mem
      (fun w => match jsFindIndex (fun y => y.id == w.id) newSeq with
        | some k => { w with position := (k : Int) }
        | none => w) hxw
    simp only [hfind] at hmap
    exact hmap

/-- Witness for C3: the successful "C"-before-"A" reorder issues calls for
ids [C, A, B] with positions [0, 1, 2], covers all three SHORTCUT widgets,
reloads, and stores position 0 on the widget with id "C". -/
theorem reorder_success_dense_renumbering_witness :
    (handleWidgetReorder exShortcutWidgets exC.id exA.id DropPosition.before
      (fun _ => false)).calls.map Prod.fst = ([exC, exA, exB] : List Widget).map Widget.id ∧
    (handleWidgetReorder exShortcutWidgets exC.id exA.id DropPosition.before
      (fun _ => false)).calls.map Prod.snd =
      List.range ([exC, exA, exB] : List Widget).length ∧
    ([exC, exA, exB] : List Widget).length =
      (exShortcutWidgets.filter (fun w => w.type == exC.type)).length ∧
    (handleWidgetReorder exShortcutWidgets exC.id exA.id DropPosition.before
      (fun _ => false)).reloaded = true ∧
    ∃ w ∈ (handleWidgetReorder exShortcutWidgets exC.id exA.id DropPosition.before
      (fun _ => false)).widgets,
      w.id = (([exC, exA, exB] : List Widget).get ⟨0, by decide⟩).id ∧
      w.position = ((0 : Nat) : Int) := by
  have h := reorder_success_dense_renumbering exShortcutWidgets exC exA
    DropPosition.before (fun _ => false) [exC, exA, exB] (by decide) (by decide)
    (by decide) (by decide) (by decide) (by decide) (fun s => rfl)
  exact ⟨h.1, h.2.1, h.2.2.1, h.2.2.2.1, h.2.2.2.2 0 (by decide)⟩

/-- Counterexample to claim C4: `handleContainerReorder` with the dragged
type present but the target type absent is NOT a no-op on the in-memory
order — the early return fires after the dragged type was already spliced
out, so the in-memory list loses the dragged type. -/
theorem container_reorder_noop_counterexample :
    (handleContainerReorder ["a", "b"] "a" "ghost" DropPosition.before).1 ≠
      ["a", "b"] := by decide

/-- Claim C4 as amended: when the dragged type is absent the call is a
complete no-op (nothing changes, nothing is persisted) — in particular the
"ghost-type" example holds — but when the dragged type is present and the
target type is absent, the persisted copy is untouched while the in-memory
order has the dragged type's occurrence removed. -/
theorem container_reorder_missing_type_behavior (containerOrder : List String)
    (draggedType targetType : String) (position : DropPosition) :
    (jsFindIndex (· == draggedType) containerOrder = none →
      handleContainerReorder containerOrder draggedType targetType position =
        (containerOrder, false)) ∧
    (∀ i, jsFindIndex (· == draggedType) containerOrder = some i →
      jsFindIndex (· == targetType) (containerOrder.eraseIdx i) = none →
      handleContainerReorder containerOrder draggedType targetType position =
        (containerOrder.eraseIdx i, false)) := by
  constructor
  · intro h
    simp only [handleContainerReorder, h]
  · intro i h1 h2
    simp only [handleContainerReorder, h1, h2]

/-- Witness for the amended C4: dragging absent "ghost-type" onto
"shortcut" is a no-op, while dragging "a" onto absent "ghost" silently
removes "a" from the in-memory order without persisting. -/
theorem container_reorder_missing_type_behavior_witness :
    (handleContainerReorder ["shortcut", "iframe"] "ghost-type" "shortcut"
      DropPosition.before = (["shortcut", "iframe"], false)) ∧
    (handleContainerReorder ["a", "b"] "a" "ghost" DropPosition.before =
      ((["a", "b"] : List String).eraseIdx 0, false)) :=
  ⟨(container_reorder_missing_type_behavior ["shortcut", "iframe"] "ghost-type"
      "shortcut" DropPosition.before).1 (by decide),
   (container_reorder_missing_type_behavior ["a", "b"] "a" "ghost"
      DropPosition.before).2 0 (by decide) (by decide)⟩

/-- Counterexample to claim C5: starting from [A, X, B, Y, C],
`handleContainerReorder (X, Y, before)` is NOT a no-op — it moves X to sit
immediately before Y. -/
theorem container_before_noop_counterexample :
    (handleContainerReorder ["A", "X", "B", "Y", "C"] "X" "Y"
      DropPosition.before).1 ≠ ["A", "X", "B", "Y", "C"] := by decide

/-- Claim C5 as amended: from [A, X, B, Y, C], before(X, Y) yields
[A, B, X, Y, C] (X moved immediately before Y, both persisted), and the
following after(X, Y) yields [A, B, Y, X, C] — so the pair reverses the
relative order of X and Y instead of restoring it. -/
theorem container_before_after_pair_behavior :
    handleContainerReorder ["A", "X", "B", "Y", "C"] "X" "Y" DropPosition.before =
      (["A", "B", "X", "Y", "C"], true) ∧
    handleContainerReorder ["A", "B", "X", "Y", "C"] "X" "Y" DropPosition.after =
      (["A", "B", "Y", "X", "C"], true) := by decide

/-- Counterexample to claim C6: a stored order of just "shortcut" together
with an observed IFRAME widget is augmented in memory but NOT persisted —
`saveContainerOrder` does not run on the append path. -/
theorem container_order_persistence_counterexample :
    (renderContainersOrder ["shortcut"] [exIframeWidget]).1 ≠ ["shortcut"] ∧
    (renderContainersOrder ["shortcut"] [exIframeWidget]).2 = false := by decide

/-- Claim C6 as amended: `renderContainers` persists the container order
only when seeding it from an empty state; every observed widget type ends
up in the in-memory order, and newly observed types are appended after the
stored order without being persisted at that point. -/
theorem container_order_augment_not_persisted (containerOrder : List String)
    (widgets : List Widget) :
    ((renderContainersOrder containerOrder widgets).2 = containerOrder.isEmpty) ∧
    (∀ t ∈ distinctTypes widgets, t ∈ (renderContainersOrder containerOrder widgets).1) ∧
    (containerOrder ≠ [] → ∃ rest,
      (renderContainersOrder containerOrder widgets).1 = containerOrder ++ rest ∧
      ∀ t ∈ rest, t ∉ containerOrder ∧ t ∈ distinctTypes widgets) := by
  refine ⟨?_, ?_, ?_⟩
  · by_cases h : containerOrder.isEmpty <;> simp [renderContainersOrder, h]
  · intro t ht
    by_cases h : containerOrder.isEmpty <;> simp only [renderContainersOrder, h] <;>
      simp only [if_true, if_false, Bool.false_eq_true, ite_true, ite_false] <;>
      exact mem_augmentOrder _ _ _ (Or.inr ht)
  · intro hne
    have h : containerOrder.isEmpty = false := by
      cases containerOrder with
      | nil => exact absurd rfl hne
      | cons a l => rfl
    simp only [renderContainersOrder, h, Bool.false_eq_true, if_false, ite_false]
    exact augmentOrder_decomp (distinctTypes widgets) containerOrder

/-- Witness for the amended C6: with stored order ["shortcut"] and an
IFRAME widget, the save flag equals the (false) emptiness of the stored
order, "iframe" appears in the resulting in-memory order, and the result
extends the stored order by new observed types only. -/
theorem container_order_augment_not_persisted_witness :
    ((renderContainersOrder ["shortcut"] [exIframeWidget]).2 =
      (["shortcut"] : List String).isEmpty) ∧
    ("iframe" ∈ (renderContainersOrder ["shortcut"] [exIframeWidget]).1) ∧
    (∃ rest, (renderContainersOrder ["shortcut"] [exIframeWidget]).1 =
        ["shortcut"] ++ rest ∧
      ∀ t ∈ rest, t ∉ (["shortcut"] : List String) ∧
        t ∈ distinctTypes [exIframeWidget]) := by
  have h := container_order_augment_not_persisted ["shortcut"] [exIframeWidget]
  exact ⟨h.1, h.2.1 "iframe" (by decide), h.2.2 (by decide)⟩

/-- Counterexample to claim C7: a self-drop (dragged id = target id, both
present) is NOT rejected — `handleWidgetReorder` has no equal-id guard, so
it issues a backend call per same-type widget and renumbers the widget's
position (here from 5 to 0). -/
theorem self_drop_counterexample :
    (handleWidgetReorder [exLone] exLone.id exLone.id DropPosition.before
      (fun _ => false)).calls ≠ [] ∧
    (handleWidgetReorder [exLone] exLone.id exLone.id DropPosition.before
      (fun _ => false)).widgets ≠ [exLone] := by decide

/-- Claim C7 as amended: an unknown dragged or target id is rejected with
only a diagnostic (no mutation, no backend calls), but a self-drop of a
present widget proceeds: the same-type group keeps its sorted order and is
densely renumbered, with one backend call per widget of that type. -/
theorem self_drop_and_unknown_id_behavior :
    (∀ (widgets : List Widget) (draggedWidgetId targetWidgetId : String)
      (position : DropPosition) (updateFails : String → Bool),
      widgets.find? (fun w => w.id == draggedWidgetId) = none ∨
        widgets.find? (fun w => w.id == targetWidgetId) = none →
      handleWidgetReorder widgets draggedWidgetId targetWidgetId position updateFails =
        { widgets := widgets, calls := [], reloaded := false, alerted := false,
          logged := true }) ∧
    (∀ (widgets : List Widget) (w : Widget) (position : DropPosition)
      (updateFails : String → Bool),
      (widgets.map Widget.id).Nodup → w ∈ widgets →
      computeNewSequence widgets w.id w.id w.type position =
        some (sortByPosition (widgets.filter (fun v => v.type == w.type))) ∧
      (handleWidgetReorder widgets w.id w.id position updateFails).calls =
        batchCalls (sortByPosition (widgets.filter (fun v => v.type == w.type)))) := by
  constructor
  · intro widgets dId tId position updateFails h
    cases hfd : widgets.find? (fun w => w.id == dId) with
    | none =>
      cases hft : widgets.find? (fun w => w.id == tId) <;>
        simp [handleWidgetReorder, hfd, hft]
    | some a =>
      cases hft : widgets.find? (fun w => w.id == tId) with
      | none => simp [handleWidgetReorder, hfd, hft]
      | some b =>
        rcases h with h | h
        · rw [hfd] at h
          exact absurd h (by simp)
        · rw [hft] at h
          exact absurd h (by simp)
  · intro widgets w position updateFails hnd hw
    have hseq := computeNewSequence_self widgets w position hnd hw
    refine ⟨hseq, ?_⟩
    rw [handleWidgetReorder_branches widgets w w position updateFails _ hnd hw hw rfl hseq]
    by_cases hfail : (sortByPosition (widgets.filter (fun v => v.type == w.type))).any
      (fun x => updateFails x.id)
    · simp [hfail]
    · simp [hfail]

/-- Witness for the amended C7: an unknown dragged id "zz" is rejected
with only a diagnostic, and a self-drop of "w1" renumbers and calls. -/
theorem self_drop_and_unknown_id_behavior_witness :
    (handleWidgetReorder [exLone] "zz" exLone.id DropPosition.before (fun _ => false) =
      { widgets := [exLone], calls := [], reloaded := false, alerted := false,
        logged := true }) ∧
    (computeNewSequence [exLone] exLone.id exLone.id exLone.type DropPosition.before =
      some (sortByPosition (([exLone] : List Widget).filter
        (fun v => v.type == exLone.type))) ∧
    (handleWidgetReorder [exLone] exLone.id exLone.id DropPosition.before
      (fun _ => false)).calls =
      batchCalls (sortByPosition (([exLone] : List Widget).filter
        (fun v => v.type == exLone.type)))) :=
  ⟨self_drop_and_unknown_id_behavior.1 [exLone] "zz" exLone.id DropPosition.before
    (fun _ => false) (Or.inl (by decide)),
   self_drop_and_unknown_id_behavior.2 [exLone] exLone DropPosition.before
    (fun _ => false) (by decide) (by decide)⟩

/-- Claim C8: for widgets A and B of different types in a collection with
unique ids, `handleWidgetReorder (A.id, B.id, pos)` leaves the collection
untouched, issues no backend call, and only logs a diagnostic. -/
theorem cross_type_reorder_rejected (widgets : List Widget) (a b : Widget)
    (position : DropPosition) (updateFails : String → Bool)
    (hnd : (widgets.map Widget.id).Nodup) (ha : a ∈ widgets) (hb : b ∈ widgets)
    (hty : a.type ≠ b.type) :
    handleWidgetReorder widgets a.id b.id position updateFails =
      { widgets := widgets, calls := [], reloaded := false, alerted := false,
        logged := true } := by
  have hfa := find?_id_eq_self hnd ha
  have hfb := find?_id_eq_self hnd hb
  simp only [handleWidgetReorder, hfa, hfb]
  rw [if_pos hty]

/-- Witness for C8: dragging SHORTCUT "A" onto IFRAME "I" is rejected with
no mutation and no calls. -/
theorem cross_type_reorder_rejected_witness :
    handleWidgetReorder [exA, exIframeWidget] exA.id exIframeWidget.id
      DropPosition.after (fun _ => false) =
      { widgets := [exA, exIframeWidget], calls := [], reloaded := false,
        alerted := false, logged := true } :=
  cross_type_reorder_rejected [exA, exIframeWidget] exA exIframeWidget
    DropPosition.after (fun _ => false) (by decide) (by decide) (by decide) (by decide)

/-- Claim C9: a widget-update event for a widget w present in a collection
with unique ids patches exactly w's properties and updated_at in place
(every other widget — the surrounding u and v — is untouched) with no
render and no reload, while a widget-delete event removes exactly w and
re-renders without reloading. -/
theorem widget_update_delete_events_local (widgets : List Widget) (w : Widget)
    (properties : List (String × String)) (now : String)
    (hnd : (widgets.map Widget.id).Nodup) (hw : w ∈ widgets) :
    ∃ u v, widgets = u ++ w :: v ∧
      (handleWidgetUpdated widgets w.id properties now).widgets =
        u ++ { w with properties := properties, updated_at := now } :: v ∧
      (handleWidgetUpdated widgets w.id properties now).rendered = false ∧
      (handleWidgetUpdated widgets w.id properties now).reloaded = false ∧
      (handleWidgetDeleted widgets w.id).widgets = u ++ v ∧
      (handleWidgetDeleted widgets w.id).rendered = true ∧
      (handleWidgetDeleted widgets w.id).reloaded = false := by
  obtain ⟨u, v, hl, hu, hv⟩ := decomp_single_nodupKeys Widget.id hnd hw
  subst hl
  exact ⟨u, v, rfl, patchFirstWidget_decomp u w v properties now hu, rfl, rfl,
    filter_out_id_decomp u w v hu hv, rfl, rfl⟩

/-- Witness for C9: updating widget "B" with a title property patches only
"B"; deleting "B" removes only "B". -/
theorem widget_update_delete_events_local_witness :
    ∃ u v, exShortcutWidgets = u ++ exB :: v ∧
      (handleWidgetUpdated exShortcutWidgets exB.id [("title", "X")]
        "2024-01-01T00:00:00Z").widgets =
        u ++ { exB with properties := [("title", "X")],
                        updated_at := "2024-01-01T00:00:00Z" } :: v ∧
      (handleWidgetUpdated exShortcutWidgets exB.id [("title", "X")]
        "2024-01-01T00:00:00Z").rendered = false ∧
      (handleWidgetUpdated exShortcutWidgets exB.id [("title", "X")]
        "2024-01-01T00:00:00Z").reloaded = false ∧
      (handleWidgetDeleted exShortcutWidgets exB.id).widgets = u ++ v ∧
      (handleWidgetDeleted exShortcutWidgets exB.id).rendered = true ∧
      (handleWidgetDeleted exShortcutWidgets exB.id).reloaded = false :=
  widget_update_delete_events_local exShortcutWidgets exB [("title", "X")]
    "2024-01-01T00:00:00Z" (by decide) (by decide)

/-- Claim C10: when both types are present in a duplicate-free container
order and distinct, `handleContainerReorder` persists and produces a
permutation of the previous order (same elements, still duplicate-free)
with the dragged type immediately before or after the target type
according to the drop position. -/
theorem container_reorder_permutation (containerOrder : List String)
    (draggedType targetType : String) (position : DropPosition)
    (hnd : containerOrder.Nodup) (hd : draggedType ∈ containerOrder)
    (ht : targetType ∈ containerOrder) (hne : draggedType ≠ targetType) :
    (handleContainerReorder containerOrder draggedType targetType position).2 = true ∧
    (handleContainerReorder containerOrder draggedType targetType position).1.Perm
      containerOrder ∧
    (handleContainerReorder containerOrder draggedType targetType position).1.Nodup ∧
    ∃ x y, (handleContainerReorder containerOrder draggedType targetType position).1 =
      x ++ (match position with
            | DropPosition.before => [draggedType, targetType]
            | DropPosition.after => [targetType, draggedType]) ++ y := by
  obtain ⟨u, m, v, hl⟩ | ⟨u, m, v, hl⟩ := decomp_two_of_mem hd ht hne
  · subst hl
    obtain ⟨hua, hma, hva, hba, hub, hmb, hvb, hab⟩ := nodup_str_facts u draggedType m
      targetType v hnd
    have hi : jsFindIndex (· == draggedType)
        (u ++ draggedType :: (m ++ targetType :: v)) = some u.length :=
      jsFindIndex_eq_some_of_decomp _ u draggedType (m ++ targetType :: v) hua (by simp)
    have herase : (u ++ draggedType :: (m ++ targetType :: v)).eraseIdx u.length =
        u ++ (m ++ targetType :: v) :=
      eraseIdx_decomp u draggedType (m ++ targetType :: v)
    have hj : jsFindIndex (· == targetType) (u ++ (m ++ targetType :: v)) =
        some (u.length + m.length) := by
      have h := jsFindIndex_eq_some_of_decomp (· == targetType) (u ++ m) targetType v
        (by
          intro y hy
          rcases List.mem_append.1 hy with h1 | h2
          · exact hub y h1
          · exact hmb y h2)
        (by simp)
      simpa using h
    cases position with
    | before =>
      have hres : handleContainerReorder (u ++ draggedType :: (m ++ targetType :: v))
          draggedType targetType DropPosition.before =
          ((u ++ m) ++ draggedType :: (targetType :: v), true) := by
        simp only [handleContainerReorder, hi, herase, hj]
        rw [show u.length + m.length = (u ++ m).length by simp,
          show u ++ (m ++ targetType :: v) = (u ++ m) ++ (targetType :: v) by simp,
          insertIdx_decomp]
      have hperm : ((u ++ m) ++ draggedType :: (targetType :: v)).Perm
          (u ++ draggedType :: (m ++ targetType :: v)) := by
        have p1 : ((u ++ m) ++ draggedType :: (targetType :: v)).Perm
            (draggedType :: (u ++ (m ++ targetType :: v))) := by
          have h := @List.perm_middle _ draggedType (u ++ m) (targetType :: v)
          simpa using h
        have p2 : (u ++ draggedType :: (m ++ targetType :: v)).Perm
            (draggedType :: (u ++ (m ++ targetType :: v))) := List.perm_middle
        exact p1.trans p2.symm
      refine ⟨by rw [hres], by rw [hres]; exact hperm, ?_, u ++ m, v, by rw [hres]; simp⟩
      rw [hres]
      exact hperm.symm.nodup hnd
    | after =>
      have hres : handleContainerReorder (u ++ draggedType :: (m ++ targetType :: v))
          draggedType targetType DropPosition.after =
          (((u ++ m) ++ [targetType]) ++ draggedType :: v, true) := by
        simp only [handleContainerReorder, hi, herase, hj]
        rw [show u.length + m.length + 1 = ((u ++ m) ++ [targetType]).length by
            simp only [List.length_append, List.length_cons, List.length_nil],
          show u ++ (m ++ targetType :: v) = ((u ++ m) ++ [targetType]) ++ v by simp,
          insertIdx_decomp]
      have hperm : (((u ++ m) ++ [targetType]) ++ draggedType :: v).Perm
          (u ++ draggedType :: (m ++ targetType :: v)) := by
        have p1 : (((u ++ m) ++ [targetType]) ++ draggedType :: v).Perm
            (draggedType :: (u ++ (m ++ targetType :: v))) := by
          have h := @List.perm_middle _ draggedType ((u ++ m) ++ [targetType]) v
          simpa using h
        have p2 : (u ++ draggedType :: (m ++ targetType :: v)).Perm
            (draggedType :: (u ++ (m ++ targetType :: v))) := List.perm_middle
        exact p1.trans p2.symm
      refine ⟨by rw [hres], by rw [hres]; exact hperm, ?_, u ++ m, v, by rw [hres]; simp⟩
      rw [hres]
      exact hperm.symm.nodup hnd
  · subst hl
    obtain ⟨hua, hma, hva, hba, hub, hmb, hvb, hab⟩ := nodup_str_facts u targetType m
      draggedType v hnd
    have hi : jsFindIndex (· == draggedType)
        (u ++ targetType :: (m ++ draggedType :: v)) =
        some (u.length + (m.length + 1)) := by
      have h := jsFindIndex_eq_some_of_decomp (· == draggedType) (u ++ targetType :: m)
        draggedType v
        (by
          intro y hy
          rcases List.mem_append.1 hy with h1 | h2
          · exact hub y h1
          · rcases List.mem_cons.1 h2 with rfl | h3
            · exact hab
            · exact hmb y h3)
        (by simp)
      simpa using h
    have herase : (u ++ targetType :: (m ++ draggedType :: v)).eraseIdx
        (u.length + (m.length + 1)) = u ++ targetType :: (m ++ v) := by
      have h := eraseIdx_decomp (u ++ targetType :: m) draggedType v
      simpa using h
    have hj : jsFindIndex (· == targetType) (u ++ targetType :: (m ++ v)) =
        some u.length :=
      jsFindIndex_eq_some_of_decomp _ u targetType (m ++ v) hua (by simp)
    have hordperm : (u ++ targetType :: (m ++ draggedType :: v)).Perm
        (draggedType :: (u ++ targetType :: (m ++ v))) := by
      have h := @List.perm_middle _ draggedType (u ++ targetType :: m) v
      simpa using h
    cases position with
    | before =>
      have hres : handleContainerReorder (u ++ targetType :: (m ++ draggedType :: v))
          draggedType targetType DropPosition.before =
          (u ++ draggedType :: (targetType :: (m ++ v)), true) := by
        simp only [handleContainerReorder, hi, herase, hj]
        rw [show u ++ targetType :: (m ++ v) = u ++ (targetType :: (m ++ v)) from rfl,
          insertIdx_decomp]
      have hperm : (u ++ draggedType :: (targetType :: (m ++ v))).Perm
          (u ++ targetType :: (m ++ draggedType :: v)) := by
        have p1 : (u ++ draggedType :: (targetType :: (m ++ v))).Perm
            (draggedType :: (u ++ targetType :: (m ++ v))) :=
          List.perm_middle
        exact p1.trans hordperm.symm
      refine ⟨by rw [hres], by rw [hres]; exact hperm, ?_, u, m ++ v, by rw [hres]; simp⟩
      rw [hres]
      exact hperm.symm.nodup hnd
    | after =>
      have hres : handleContainerReorder (u ++ targetType :: (m ++ draggedType :: v))
          draggedType targetType DropPosition.after =
          ((u ++ [targetType]) ++ draggedType :: (m ++ v), true) := by
        simp only [handleContainerReorder, hi, herase, hj]
        rw [show u.length + 1 = (u ++ [targetType]).length by simp,
          show u ++ targetType :: (m ++ v) = (u ++ [targetType]) ++ (m ++ v) by simp,
          insertIdx_decomp]
      have hperm : ((u ++ [targetType]) ++ draggedType :: (m ++ v)).Perm
          (u ++ targetType :: (m ++ draggedType :: v)) := by
        have p1 : ((u ++ [targetType]) ++ draggedType :: (m ++ v)).Perm
            (draggedType :: (u ++ targetType :: (m ++ v))) := by
          have h := @List.perm_middle _ draggedType (u ++ [targetType]) (m ++ v)
          simpa using h
        exact p1.trans hordperm.symm
      refine ⟨by rw [hres], by rw [hres]; exact hperm, ?_, u, m ++ v, by rw [hres]; simp⟩
      rw [hres]
      exact hperm.symm.nodup hnd

/-- Witness for C10: moving "x" to before "y" in [a, x, b, y, c] persists
a duplicate-free permutation with "x" immediately before "y". -/
theorem container_reorder_permutation_witness :
    (handleContainerReorder ["a", "x", "b", "y", "c"] "x" "y" DropPosition.before).2 =
      true ∧
    (handleContainerReorder ["a", "x", "b", "y", "c"] "x" "y"
      DropPosition.before).1.Perm ["a", "x", "b", "y", "c"] ∧
    (handleContainerReorder ["a", "x", "b", "y", "c"] "x" "y"
      DropPosition.before).1.Nodup ∧
    ∃ x y, (handleContainerReorder ["a", "x", "b", "y", "c"] "x" "y"
      DropPosition.before).1 =
      x ++ (match DropPosition.before with
            | DropPosition.before => ["x", "y"]
            | DropPosition.after => ["y", "x"]) ++ y :=
  container_reorder_permutation ["a", "x", "b", "y", "c"] "x" "y" DropPosition.before
    (by decide) (by decide) (by decide) (by decide)
